import Mathlib

/-!
Verification of the GigSphere canister
(`src/icp_rust_boilerplate_backend/src/lib.rs`).

The canister state is a persisted `u64` id counter (an
`ic_stable_structures::Cell`, initialized to 0) together with a
`StableBTreeMap<u64, Gig>`.  We embed the map as an association list sorted
by strictly increasing key, which is exactly the observable behaviour of the
B-tree: point lookup, upserting insert, point remove, and iteration in
ascending key order.  The `u64` counter is embedded as a `Nat` reduced
modulo `2 ^ 64`, matching wrapping arithmetic on the machine word.

Every public entry point receives the ambient values the IC runtime
supplies — the already-resolved caller identity (`ic_cdk::caller()`
rendered `to_string`) and the current time (`ic_cdk::api::time()`) — as
explicit `String` / `Nat` arguments, and returns its result value paired
with the post-state.
-/

deriving instance DecidableEq for Except

/-- Modulus of the `u64` machine word used by the id counter. -/
def U64_MOD : Nat := 2 ^ 64

/-- `GigStatus` from the source: possible statuses of a gig. -/
inductive GigStatus where
  | Open
  | Assigned
  | Approved
  | Disputed
deriving DecidableEq, Repr

/-- `Gig` record from the source (field for field). -/
structure Gig where
  id : Nat
  title : String
  description : String
  employer : String
  deadline : Nat
  assigned_to : Option String
  status : GigStatus
  created_at : Nat
  updated_at : Option Nat
deriving DecidableEq, Repr

/-- `GigPayload` from the source: the fields a caller supplies. -/
structure GigPayload where
  title : String
  description : String
  deadline : Nat
deriving DecidableEq, Repr

/-- Point lookup in the association list store: `StableBTreeMap::get`. -/
def storeGet : List (Nat × Gig) → Nat → Option Gig
  | [], _ => none
  | (k, v) :: rest, key => if key = k then some v else storeGet rest key

/-- Upserting, order-preserving insert: `StableBTreeMap::insert`. -/
def storeInsert : List (Nat × Gig) → Nat → Gig → List (Nat × Gig)
  | [], key, v => [(key, v)]
  | (k, w) :: rest, key, v =>
      if key < k then (key, v) :: (k, w) :: rest
      else if key = k then (key, v) :: rest
      else (k, w) :: storeInsert rest key v

/-- Point removal: `StableBTreeMap::remove`. -/
def storeRemove : List (Nat × Gig) → Nat → List (Nat × Gig)
  | [], _ => []
  | (k, w) :: rest, key =>
      if key = k then rest else (k, w) :: storeRemove rest key

/-- The canister's stable state: the `ID_COUNTER` cell and `GIG_STORAGE`. -/
structure CanisterState where
  idCounter : Nat
  gigStorage : List (Nat × Gig)
deriving DecidableEq, Repr

/-- State at first installation: counter 0, empty storage. -/
def initState : CanisterState := ⟨0, []⟩

/-- `post_gig`: reads the current counter value, persists `current + 1`
(wrapping at the `u64` width) via `Cell::set`, and uses the value `set`
returns as the fresh id.  `ic_stable_structures::Cell::set` returns the
*previous* cell content (a `mem::replace`; `T` has no `Clone` bound), so
the allocated id is the pre-increment counter value — the first gig gets
id 0.  The gig is built with the caller as employer, status `Open`,
`created_at` stamped, inserted (`do_insert_gig`) and returned. -/
def post_gig (caller : String) (now : Nat) (payload : GigPayload)
    (st : CanisterState) : Gig × CanisterState :=
  let id := st.idCounter
  let gig : Gig :=
    { id := id
      title := payload.title
      description := payload.description
      employer := caller
      deadline := payload.deadline
      assigned_to := none
      status := GigStatus.Open
      created_at := now
      updated_at := none }
  (gig, ⟨(st.idCounter + 1) % U64_MOD, storeInsert st.gigStorage gig.id gig⟩)

/-- `assign_gig`: employer-only; requires status `Open`; sets
`assigned_to`, status `Assigned`, stamps `updated_at`, re-inserts. -/
def assign_gig (caller : String) (now : Nat) (id : Nat) (worker : String)
    (st : CanisterState) : Except String Gig × CanisterState :=
  match storeGet st.gigStorage id with
  | none => (Except.error "Gig not found", st)
  | some gig =>
      if gig.employer ≠ caller then
        (Except.error "Only the employer can assign this gig", st)
      else if gig.status ≠ GigStatus.Open then
        (Except.error "Gig is not open for assignment", st)
      else
        let gig2 : Gig :=
          { gig with
              assigned_to := some worker
              status := GigStatus.Assigned
              updated_at := some now }
        (Except.ok gig2, ⟨st.idCounter, storeInsert st.gigStorage gig2.id gig2⟩)

/-- `approve_gig`: employer-only; no status guard; sets status `Approved`,
stamps `updated_at`, re-inserts. -/
def approve_gig (caller : String) (now : Nat) (id : Nat)
    (st : CanisterState) : Except String Gig × CanisterState :=
  match storeGet st.gigStorage id with
  | none => (Except.error "Gig not found", st)
  | some gig =>
      if gig.employer ≠ caller then
        (Except.error "Only the employer can approve this gig", st)
      else
        let gig2 : Gig :=
          { gig with
              status := GigStatus.Approved
              updated_at := some now }
        (Except.ok gig2, ⟨st.idCounter, storeInsert st.gigStorage gig2.id gig2⟩)

/-- `update_gig`: employer-only; rejected when status is `Approved`;
replaces title, description and deadline, stamps `updated_at`,
re-inserts. -/
def update_gig (caller : String) (now : Nat) (id : Nat) (payload : GigPayload)
    (st : CanisterState) : Except String Gig × CanisterState :=
  match storeGet st.gigStorage id with
  | none => (Except.error "Gig not found", st)
  | some gig =>
      if gig.employer ≠ caller then
        (Except.error "Only the employer can update this gig", st)
      else if gig.status = GigStatus.Approved then
        (Except.error "Approved gigs cannot be updated", st)
      else
        let gig2 : Gig :=
          { gig with
              title := payload.title
              description := payload.description
              deadline := payload.deadline
              updated_at := some now }
        (Except.ok gig2, ⟨st.idCounter, storeInsert st.gigStorage gig2.id gig2⟩)

/-- `delete_gig`: employer-only; removes the record from storage. -/
def delete_gig (caller : String) (id : Nat)
    (st : CanisterState) : Except String String × CanisterState :=
  match storeGet st.gigStorage id with
  | none => (Except.error "Gig not found", st)
  | some gig =>
      if gig.employer ≠ caller then
        (Except.error "Only the employer can delete this gig", st)
      else
        (Except.ok "Gig deleted successfully", ⟨st.idCounter, storeRemove st.gigStorage id⟩)

/-- `get_all_gigs`: iterates the map in key order and collects the values. -/
def get_all_gigs (st : CanisterState) : List Gig :=
  st.gigStorage.map Prod.snd

/-- `get_gig`: point lookup by id. -/
def get_gig (id : Nat) (st : CanisterState) : Option Gig :=
  storeGet st.gigStorage id

/-- One external call to the canister, with the runtime-supplied caller
identity and time. -/
inductive Call where
  | post (caller : String) (now : Nat) (payload : GigPayload)
  | assign (caller : String) (now : Nat) (id : Nat) (worker : String)
  | approve (caller : String) (now : Nat) (id : Nat)
  | update (caller : String) (now : Nat) (id : Nat) (payload : GigPayload)
  | delete (caller : String) (id : Nat)
deriving DecidableEq, Repr

/-- State transition of one call (the IC serializes calls, so state
evolution is a fold over the call sequence). -/
def step (st : CanisterState) : Call → CanisterState
  | Call.post c now p => (post_gig c now p st).2
  | Call.assign c now id w => (assign_gig c now id w st).2
  | Call.approve c now id => (approve_gig c now id st).2
  | Call.update c now id p => (update_gig c now id p st).2
  | Call.delete c id => (delete_gig c id st).2

/-- State reached from installation after a sequence of calls. -/
def run (cs : List Call) : CanisterState := cs.foldl step initState

/-- Number of `post` calls in a call sequence. -/
def numPosts : List Call → Nat
  | [] => 0
  | Call.post _ _ _ :: rest => numPosts rest + 1
  | _ :: rest => numPosts rest

/-- Run a block of consecutive `post_gig` calls, collecting the returned
gigs in call order. -/
def runPosts (st : CanisterState) :
    List (String × Nat × GigPayload) → List Gig × CanisterState
  | [] => ([], st)
  | (c, now, p) :: rest =>
      let r := post_gig c now p st
      let rs := runPosts r.2 rest
      (r.1 :: rs.1, rs.2)

/-- Store well-formedness: keys strictly sorted (the B-tree iteration
order) and every stored gig's `id` field equal to its key. -/
def StoreOk (st : CanisterState) : Prop :=
  List.Pairwise (· < ·) (st.gigStorage.map Prod.fst) ∧
  ∀ p ∈ st.gigStorage, (p.2).id = p.1

/-- Every stored key is strictly below the current counter value (ids are
allocated from 0, pre-increment). -/
def KeysLt (st : CanisterState) : Prop :=
  ∀ p ∈ st.gigStorage, p.1 < st.idCounter

/-- A sample open gig used to evaluate the theorems on concrete input. -/
def wGigOpen : Gig := ⟨1, "t", "d", "A", 9, none, GigStatus.Open, 0, none⟩

/-- A sample disputed gig. -/
def wGigDisputed : Gig := ⟨1, "t", "d", "A", 9, none, GigStatus.Disputed, 0, none⟩

/-- A sample approved gig. -/
def wGigApproved : Gig := ⟨1, "t", "d", "A", 9, none, GigStatus.Approved, 0, none⟩

/-- Sample state holding `wGigOpen` under its id. -/
def wStateOpen : CanisterState := ⟨1, [(1, wGigOpen)]⟩

/-- Sample state holding `wGigDisputed` under its id. -/
def wStateDisputed : CanisterState := ⟨1, [(1, wGigDisputed)]⟩

/-- Sample state holding `wGigApproved` under its id. -/
def wStateApproved : CanisterState := ⟨1, [(1, wGigApproved)]⟩

theorem storeGet_insert_self (s : List (Nat × Gig)) (k : Nat) (v : Gig) :
    storeGet (storeInsert s k v) k = some v := by
  induction s with
  | nil => simp [storeInsert, storeGet]
  | cons hd tl ih =>
      obtain ⟨k1, v1⟩ := hd
      by_cases h1 : k < k1
      · simp [storeInsert, storeGet, h1]
      · by_cases h2 : k = k1
        · simp [storeInsert, storeGet, h1, h2]
        · simp [storeInsert, storeGet, h1, h2, ih]

theorem storeGet_insert_ne (s : List (Nat × Gig)) (k : Nat) (v : Gig)
    (k2 : Nat) (h : k2 ≠ k) :
    storeGet (storeInsert s k v) k2 = storeGet s k2 := by
  induction s with
  | nil => simp [storeInsert, storeGet, h]
  | cons hd tl ih =>
      obtain ⟨k1, v1⟩ := hd
      by_cases h1 : k < k1
      · simp only [storeInsert, if_pos h1, storeGet, if_neg h]
      · by_cases h2 : k = k1
        · subst h2
          simp [storeInsert, storeGet, h1, h]
        · by_cases h3 : k2 = k1
          · simp [storeInsert, storeGet, h1, h2, h3]
          · simp [storeInsert, storeGet, h1, h2, h3, ih]

theorem mem_storeInsert (s : List (Nat × Gig)) (k : Nat) (v : Gig)
    (p : Nat × Gig) (hp : p ∈ storeInsert s k v) : p = (k, v) ∨ p ∈ s := by
  induction s with
  | nil => simpa [storeInsert] using hp
  | cons hd tl ih =>
      obtain ⟨k1, v1⟩ := hd
      by_cases h1 : k < k1
      · simp only [storeInsert, if_pos h1, List.mem_cons] at hp
        rcases hp with hp | hp | hp
        · exact Or.inl hp
        · exact Or.inr (List.mem_cons.mpr (Or.inl hp))
        · exact Or.inr (List.mem_cons_of_mem _ hp)
      · by_cases h2 : k = k1
        · simp only [storeInsert, if_neg h1, if_pos h2, List.mem_cons] at hp
          rcases hp with hp | hp
          · exact Or.inl hp
          · exact Or.inr (List.mem_cons_of_mem _ hp)
        · simp only [storeInsert, if_neg h1, if_neg h2, List.mem_cons] at hp
          rcases hp with hp | hp
          · exact Or.inr (List.mem_cons.mpr (Or.inl hp))
          · rcases ih hp with h | h
            · exact Or.inl h
            · exact Or.inr (List.mem_cons_of_mem _ h)

theorem mem_keys_storeInsert (s : List (Nat × Gig)) (k : Nat) (v : Gig)
    (q : Nat) (hq : q ∈ (storeInsert s k v).map Prod.fst) :
    q = k ∨ q ∈ s.map Prod.fst := by
  obtain ⟨p, hp, hpq⟩ := List.mem_map.mp hq
  rcases mem_storeInsert s k v p hp with h | h
  · subst h
    exact Or.inl hpq.symm
  · exact Or.inr (List.mem_map.mpr ⟨p, h, hpq⟩)

theorem storeInsert_sorted (s : List (Nat × Gig)) (k : Nat) (v : Gig)
    (h : List.Pairwise (· < ·) (s.map Prod.fst)) :
    List.Pairwise (· < ·) ((storeInsert s k v).map Prod.fst) := by
  induction s with
  | nil => simp [storeInsert]
  | cons hd tl ih =>
      obtain ⟨k1, v1⟩ := hd
      simp only [List.map_cons, List.pairwise_cons] at h
      obtain ⟨hlt, htl⟩ := h
      by_cases h1 : k < k1
      · simp only [storeInsert, if_pos h1, List.map_cons, List.pairwise_cons]
        refine ⟨?_, hlt, htl⟩
        intro b hb
        rcases List.mem_cons.mp hb with hb | hb
        · omega
        · have := hlt b hb
          omega
      · by_cases h2 : k = k1
        · subst h2
          have heq : storeInsert ((k, v1) :: tl) k v = (k, v) :: tl := by
            simp [storeInsert, h1]
          rw [heq]
          simp only [List.map_cons, List.pairwise_cons]
          exact ⟨hlt, htl⟩
        · simp only [storeInsert, if_neg h1, if_neg h2, List.map_cons,
            List.pairwise_cons]
          refine ⟨?_, ih htl⟩
          intro b hb
          rcases mem_keys_storeInsert tl k v b hb with h | h
          · omega
          · exact hlt b h

theorem storeRemove_sublist (s : List (Nat × Gig)) (k : Nat) :
    List.Sublist (storeRemove s k) s := by
  induction s with
  | nil => simp [storeRemove]
  | cons hd tl ih =>
      obtain ⟨k1, v1⟩ := hd
      by_cases h1 : k = k1
      · rw [storeRemove, if_pos h1]
        exact List.Sublist.cons _ (List.Sublist.refl tl)
      · rw [storeRemove, if_neg h1]
        exact List.Sublist.cons₂ _ ih

theorem storeRemove_sorted (s : List (Nat × Gig)) (k : Nat)
    (h : List.Pairwise (· < ·) (s.map Prod.fst)) :
    List.Pairwise (· < ·) ((storeRemove s k).map Prod.fst) :=
  List.Pairwise.sublist (List.Sublist.map Prod.fst (storeRemove_sublist s k)) h

theorem storeGet_eq_none_of_not_mem (s : List (Nat × Gig)) (k : Nat)
    (h : k ∉ s.map Prod.fst) : storeGet s k = none := by
  induction s with
  | nil => simp [storeGet]
  | cons hd tl ih =>
      obtain ⟨k1, v1⟩ := hd
      simp only [List.map_cons, List.mem_cons, not_or] at h
      simp [storeGet, h.1, ih h.2]

theorem storeGet_mem (s : List (Nat × Gig)) (k : Nat) (v : Gig)
    (h : storeGet s k = some v) : (k, v) ∈ s := by
  induction s with
  | nil => simp [storeGet] at h
  | cons hd tl ih =>
      obtain ⟨k1, v1⟩ := hd
      by_cases h1 : k = k1
      · subst h1
        simp [storeGet] at h
        subst h
        exact List.mem_cons_self _ _
      · simp only [storeGet, if_neg h1] at h
        exact List.mem_cons_of_mem _ (ih h)

theorem mem_storeGet (s : List (Nat × Gig)) (k : Nat) (v : Gig)
    (hs : List.Pairwise (· < ·) (s.map Prod.fst)) (hm : (k, v) ∈ s) :
    storeGet s k = some v := by
  induction s with
  | nil => simp at hm
  | cons hd tl ih =>
      obtain ⟨k1, v1⟩ := hd
      simp only [List.map_cons, List.pairwise_cons] at hs
      rcases List.mem_cons.mp hm with hm | hm
      · injection hm with h1 h2
        subst h1
        subst h2
        simp [storeGet]
      · have hne : k ≠ k1 := by
          have hk : k ∈ tl.map Prod.fst := List.mem_map_of_mem Prod.fst hm
          have := hs.1 k hk
          omega
        simp [storeGet, hne, ih hs.2 hm]

theorem mem_storeRemove (s : List (Nat × Gig)) (k : Nat) (p : Nat × Gig)
    (hs : List.Pairwise (· < ·) (s.map Prod.fst)) (hp : p ∈ storeRemove s k) :
    p ∈ s ∧ p.1 ≠ k := by
  induction s with
  | nil => simp [storeRemove] at hp
  | cons hd tl ih =>
      obtain ⟨k1, v1⟩ := hd
      simp only [List.map_cons, List.pairwise_cons] at hs
      by_cases h1 : k = k1
      · subst h1
        rw [storeRemove, if_pos rfl] at hp
        refine ⟨List.mem_cons_of_mem _ hp, ?_⟩
        have hk : p.1 ∈ tl.map Prod.fst := List.mem_map_of_mem Prod.fst hp
        have := hs.1 p.1 hk
        omega
      · rw [storeRemove, if_neg h1] at hp
        rcases List.mem_cons.mp hp with hp | hp
        · subst hp
          exact ⟨List.mem_cons_self _ _, by simpa using Ne.symm h1⟩
        · obtain ⟨h2, h3⟩ := ih hs.2 hp
          exact ⟨List.mem_cons_of_mem _ h2, h3⟩

theorem storeGet_remove_self (s : List (Nat × Gig)) (k : Nat)
    (hs : List.Pairwise (· < ·) (s.map Prod.fst)) :
    storeGet (storeRemove s k) k = none := by
  apply storeGet_eq_none_of_not_mem
  intro hk
  obtain ⟨p, hp, hpk⟩ := List.mem_map.mp hk
  exact (mem_storeRemove s k p hs hp).2 hpk

theorem storeOk_initState : StoreOk initState := by
  constructor <;> simp [initState]

theorem keysLt_initState : KeysLt initState := by
  intro p hp
  simp [initState] at hp

theorem storeOk_insert_keyid (st : CanisterState) (k : Nat) (g2 : Gig)
    (hid : g2.id = k) (hok : StoreOk st) (c2 : Nat) :
    StoreOk ⟨c2, storeInsert st.gigStorage k g2⟩ := by
  refine ⟨storeInsert_sorted _ _ _ hok.1, ?_⟩
  intro p hp
  rcases mem_storeInsert _ _ _ p hp with h | h
  · subst h
    exact hid
  · exact hok.2 p h

theorem keysLt_insert_found (st : CanisterState) (id k : Nat) (gig g2 : Gig)
    (hget : storeGet st.gigStorage id = some gig) (hkid : k = id)
    (hk : KeysLt st) :
    KeysLt ⟨st.idCounter, storeInsert st.gigStorage k g2⟩ := by
  have hmem := storeGet_mem _ _ _ hget
  have hbound := hk _ hmem
  intro p hp
  rcases mem_storeInsert _ _ _ p hp with h | h
  · subst h
    simpa [hkid] using hbound
  · exact hk p h

theorem step_storeOk (st : CanisterState) (c : Call) (hok : StoreOk st) :
    StoreOk (step st c) := by
  cases c with
  | post caller now p =>
      refine ⟨storeInsert_sorted _ _ _ hok.1, ?_⟩
      intro q hq
      rcases mem_storeInsert _ _ _ q hq with h | h
      · subst h
        rfl
      · exact hok.2 q h
  | assign caller now id w =>
      rcases hget : storeGet st.gigStorage id with _ | gig <;>
        simp only [step, assign_gig, hget]
      · exact hok
      · split_ifs with h1 h2
        · exact hok
        · exact hok
        · refine storeOk_insert_keyid st _ _ ?_ hok _
          rfl
  | approve caller now id =>
      rcases hget : storeGet st.gigStorage id with _ | gig <;>
        simp only [step, approve_gig, hget]
      · exact hok
      · split_ifs with h1
        · exact hok
        · refine storeOk_insert_keyid st _ _ ?_ hok _
          rfl
  | update caller now id p =>
      rcases hget : storeGet st.gigStorage id with _ | gig <;>
        simp only [step, update_gig, hget]
      · exact hok
      · split_ifs with h1 h2
        · exact hok
        · exact hok
        · refine storeOk_insert_keyid st _ _ ?_ hok _
          rfl
  | delete caller id =>
      rcases hget : storeGet st.gigStorage id with _ | gig <;>
        simp only [step, delete_gig, hget]
      · exact hok
      · split_ifs with h1
        · exact hok
        · refine ⟨storeRemove_sorted _ _ hok.1, ?_⟩
          intro p hp
          exact hok.2 p ((storeRemove_sublist _ _).subset hp)

theorem step_post_counter (caller : String) (now : Nat) (p : GigPayload)
    (st : CanisterState) (hk : KeysLt st)
    (hw : st.idCounter + 1 < U64_MOD) :
    KeysLt (step st (Call.post caller now p)) ∧
    (step st (Call.post caller now p)).idCounter = st.idCounter + 1 := by
  have hmod : (st.idCounter + 1) % U64_MOD = st.idCounter + 1 :=
    Nat.mod_eq_of_lt hw
  have hst : step st (Call.post caller now p) =
      ⟨st.idCounter + 1,
        storeInsert st.gigStorage st.idCounter
          ⟨st.idCounter, p.title, p.description, caller, p.deadline, none,
            GigStatus.Open, now, none⟩⟩ := by
    simp [step, post_gig, hmod]
  rw [hst]
  constructor
  · intro q hq
    rcases mem_storeInsert _ _ _ q hq with h | h
    · subst h
      dsimp only
      omega
    · have hb := hk q h
      dsimp only
      omega
  · rfl

theorem step_nonpost_counter (st : CanisterState) (c : Call)
    (hnp : numPosts [c] = 0) (hok : StoreOk st) (hk : KeysLt st) :
    KeysLt (step st c) ∧ (step st c).idCounter = st.idCounter := by
  cases c with
  | post caller now p => simp [numPosts] at hnp
  | assign caller now id w =>
      rcases hget : storeGet st.gigStorage id with _ | gig <;>
        simp only [step, assign_gig, hget]
      · exact ⟨hk, by trivial⟩
      · split_ifs with h1 h2
        · exact ⟨hk, by trivial⟩
        · exact ⟨hk, by trivial⟩
        · refine ⟨?_, by trivial⟩
          refine keysLt_insert_found st id _ gig _ hget ?_ hk
          exact hok.2 _ (storeGet_mem _ _ _ hget)
  | approve caller now id =>
      rcases hget : storeGet st.gigStorage id with _ | gig <;>
        simp only [step, approve_gig, hget]
      · exact ⟨hk, by trivial⟩
      · split_ifs with h1
        · exact ⟨hk, by trivial⟩
        · refine ⟨?_, by trivial⟩
          refine keysLt_insert_found st id _ gig _ hget ?_ hk
          exact hok.2 _ (storeGet_mem _ _ _ hget)
  | update caller now id p =>
      rcases hget : storeGet st.gigStorage id with _ | gig <;>
        simp only [step, update_gig, hget]
      · exact ⟨hk, by trivial⟩
      · split_ifs with h1 h2
        · exact ⟨hk, by trivial⟩
        · exact ⟨hk, by trivial⟩
        · refine ⟨?_, by trivial⟩
          refine keysLt_insert_found st id _ gig _ hget ?_ hk
          exact hok.2 _ (storeGet_mem _ _ _ hget)
  | delete caller id =>
      rcases hget : storeGet st.gigStorage id with _ | gig <;>
        simp only [step, delete_gig, hget]
      · exact ⟨hk, by trivial⟩
      · split_ifs with h1
        · exact ⟨hk, by trivial⟩
        · refine ⟨?_, rfl⟩
          intro p hp
          exact hk p ((storeRemove_sublist _ _).subset hp)

theorem foldl_storeOk (cs : List Call) :
    ∀ st : CanisterState, StoreOk st → StoreOk (cs.foldl step st) := by
  induction cs with
  | nil => intro st h; simpa using h
  | cons c rest ih =>
      intro st h
      simpa using ih (step st c) (step_storeOk st c h)

theorem run_storeOk (cs : List Call) : StoreOk (run cs) :=
  foldl_storeOk cs initState storeOk_initState

theorem numPosts_cons (c : Call) (rest : List Call) :
    numPosts (c :: rest) = numPosts [c] + numPosts rest := by
  cases c <;> simp [numPosts, Nat.add_comm]

theorem foldl_step_inv (cs : List Call) :
    ∀ st : CanisterState, StoreOk st → KeysLt st →
    st.idCounter + numPosts cs < U64_MOD →
    KeysLt (cs.foldl step st) ∧
    (cs.foldl step st).idCounter = st.idCounter + numPosts cs := by
  induction cs with
  | nil =>
      intro st _ hk _
      simpa [numPosts] using hk
  | cons c rest ih =>
      intro st hok hk hw
      rw [numPosts_cons] at hw
      have hok1 := step_storeOk st c hok
      cases hc : numPosts [c] with
      | zero =>
          obtain ⟨hk1, hc1⟩ := step_nonpost_counter st c hc hok hk
          have hrec := ih (step st c) hok1 hk1 (by rw [hc1]; omega)
          simp only [List.foldl_cons]
          rw [numPosts_cons, hc]
          exact ⟨hrec.1, by rw [hrec.2, hc1]; omega⟩
      | succ n =>
          cases c with
          | post caller now p =>
              have hc1 : numPosts [Call.post caller now p] = 1 := rfl
              obtain ⟨hk1, hcnt⟩ :=
                step_post_counter caller now p st hk (by rw [hc1] at hw; omega)
              have hrec := ih (step st (Call.post caller now p)) hok1 hk1
                (by rw [hcnt]; rw [hc1] at hw; omega)
              simp only [List.foldl_cons]
              rw [numPosts_cons, hc1]
              exact ⟨hrec.1, by rw [hrec.2, hcnt]; omega⟩
          | assign caller now id w => simp [numPosts] at hc
          | approve caller now id => simp [numPosts] at hc
          | update caller now id p => simp [numPosts] at hc
          | delete caller id => simp [numPosts] at hc

theorem run_inv (cs : List Call) (hw : numPosts cs < U64_MOD) :
    KeysLt (run cs) ∧ (run cs).idCounter = numPosts cs := by
  have := foldl_step_inv cs initState storeOk_initState keysLt_initState
    (by simpa [initState] using hw)
  simpa [run, initState] using this

theorem runPosts_ids (l : List (String × Nat × GigPayload)) :
    ∀ st : CanisterState, st.idCounter + l.length < U64_MOD →
    ((runPosts st l).1).map Gig.id = List.range' st.idCounter l.length ∧
    (runPosts st l).2.idCounter = st.idCounter + l.length := by
  induction l with
  | nil =>
      intro st _
      simp [runPosts]
  | cons hd tl ih =>
      obtain ⟨c, now, p⟩ := hd
      intro st hw
      rw [List.length_cons] at hw
      have hmod : (st.idCounter + 1) % U64_MOD = st.idCounter + 1 :=
        Nat.mod_eq_of_lt (by omega)
      have h1 : (post_gig c now p st).1.id = st.idCounter := rfl
      have h2 : (post_gig c now p st).2.idCounter = st.idCounter + 1 := by
        simp [post_gig, hmod]
      have hrec := ih (post_gig c now p st).2 (by rw [h2]; omega)
      constructor
      · simp only [runPosts, List.map_cons, h1, hrec.1, h2, List.length_cons]
        rw [List.range'_succ]
      · simp only [runPosts, hrec.2, h2, List.length_cons]
        omega

example :
    (post_gig "A" 7 ⟨"t", "d", 100⟩ initState).1 =
      ⟨0, "t", "d", "A", 100, none, GigStatus.Open, 7, none⟩ := by
  decide

example :
    (post_gig "A" 7 ⟨"t", "d", 100⟩ initState).2 =
      ⟨1, [(0, ⟨0, "t", "d", "A", 100, none, GigStatus.Open, 7, none⟩)]⟩ := by
  decide

example :
    (assign_gig "A" 9 0 "W" (post_gig "A" 7 ⟨"t", "d", 100⟩ initState).2).1 =
      Except.ok ⟨0, "t", "d", "A", 100, some "W", GigStatus.Assigned, 7, some 9⟩ := by
  decide

example :
    (assign_gig "B" 9 0 "W" (post_gig "A" 7 ⟨"t", "d", 100⟩ initState).2).1 =
      Except.error "Only the employer can assign this gig" := by
  decide

/-- C2: for every gig in the store and every caller identity different from
that gig's employer, each of `assign_gig`, `approve_gig`, `update_gig` and
`delete_gig` invoked by that caller on the gig's id fails with the
corresponding unauthorized error, and the state (hence the stored record)
is unchanged by the failed call. -/
theorem claim2_unauthorized_rejected (st : CanisterState) (id : Nat)
    (g : Gig) (i w : String) (now : Nat) (p : GigPayload)
    (hget : storeGet st.gigStorage id = some g) (hne : i ≠ g.employer) :
    assign_gig i now id w st =
      (Except.error "Only the employer can assign this gig", st) ∧
    approve_gig i now id st =
      (Except.error "Only the employer can approve this gig", st) ∧
    update_gig i now id p st =
      (Except.error "Only the employer can update this gig", st) ∧
    delete_gig i id st =
      (Except.error "Only the employer can delete this gig", st) := by
  have hne2 : g.employer ≠ i := Ne.symm hne
  refine ⟨?_, ?_, ?_, ?_⟩ <;>
    simp [assign_gig, approve_gig, update_gig, delete_gig, hget, hne2]

/-- Witness for C2 at the concrete one-gig state, caller B ≠ employer A. -/
theorem claim2_unauthorized_rejected_witness :
    (storeGet wStateOpen.gigStorage 1 = some wGigOpen ∧ "B" ≠ wGigOpen.employer) ∧
    (assign_gig "B" 5 1 "W" wStateOpen =
      (Except.error "Only the employer can assign this gig", wStateOpen) ∧
    approve_gig "B" 5 1 wStateOpen =
      (Except.error "Only the employer can approve this gig", wStateOpen) ∧
    update_gig "B" 5 1 ⟨"t2", "d2", 11⟩ wStateOpen =
      (Except.error "Only the employer can update this gig", wStateOpen) ∧
    delete_gig "B" 1 wStateOpen =
      (Except.error "Only the employer can delete this gig", wStateOpen)) :=
  ⟨⟨by decide, by decide⟩,
    claim2_unauthorized_rejected wStateOpen 1 wGigOpen "B" "W" 5 ⟨"t2", "d2", 11⟩
      (by decide) (by decide)⟩

/-- C3: called by the employer on an existing gig, `approve_gig` succeeds
with no status guard whatsoever (any current status, including `Approved`
and `Disputed`), setting the stored status to `Approved` and stamping
`updated_at` with the current time. -/
theorem claim3_approve_no_status_guard (st : CanisterState) (id : Nat)
    (g : Gig) (now : Nat)
    (hget : storeGet st.gigStorage id = some g) (hid : g.id = id) :
    approve_gig g.employer now id st =
      (Except.ok { g with status := GigStatus.Approved, updated_at := some now },
        ⟨st.idCounter,
          storeInsert st.gigStorage g.id
            { g with status := GigStatus.Approved, updated_at := some now }⟩) ∧
    get_gig id (approve_gig g.employer now id st).2 =
      some { g with status := GigStatus.Approved, updated_at := some now } := by
  subst hid
  have h1 : approve_gig g.employer now g.id st =
      (Except.ok { g with status := GigStatus.Approved, updated_at := some now },
        ⟨st.idCounter,
          storeInsert st.gigStorage g.id
            { g with status := GigStatus.Approved, updated_at := some now }⟩) := by
    simp [approve_gig, hget]
  refine ⟨h1, ?_⟩
  rw [h1]
  exact storeGet_insert_self _ _ _

/-- Witness for C3 at a concrete state whose gig is already `Disputed`. -/
theorem claim3_approve_no_status_guard_witness :
    (storeGet wStateDisputed.gigStorage 1 = some wGigDisputed ∧
      wGigDisputed.id = 1) ∧
    (approve_gig wGigDisputed.employer 8 1 wStateDisputed =
      (Except.ok { wGigDisputed with status := GigStatus.Approved, updated_at := some 8 },
        ⟨wStateDisputed.idCounter,
          storeInsert wStateDisputed.gigStorage wGigDisputed.id
            { wGigDisputed with status := GigStatus.Approved, updated_at := some 8 }⟩) ∧
    get_gig 1 (approve_gig wGigDisputed.employer 8 1 wStateDisputed).2 =
      some { wGigDisputed with status := GigStatus.Approved, updated_at := some 8 }) :=
  ⟨⟨by decide, by decide⟩,
    claim3_approve_no_status_guard wStateDisputed 1 wGigDisputed 8
      (by decide) (by decide)⟩

/-- C4: for an existing gig whose employer is the caller, `assign_gig`
succeeds if and only if the current status is `Open`; after success the
stored gig's status is `Assigned` and its `assigned_to` is the given
worker; on any non-`Open` status it fails with the invalid-state error
and the state is unchanged. -/
theorem claim4_assign_iff_open (st : CanisterState) (id : Nat) (g : Gig)
    (w : String) (now : Nat)
    (hget : storeGet st.gigStorage id = some g) (hid : g.id = id) :
    ((∃ g2, (assign_gig g.employer now id w st).1 = Except.ok g2) ↔
      g.status = GigStatus.Open) ∧
    (g.status = GigStatus.Open →
      assign_gig g.employer now id w st =
        (Except.ok { g with assigned_to := some w, status := GigStatus.Assigned, updated_at := some now },
          ⟨st.idCounter,
            storeInsert st.gigStorage g.id
              { g with assigned_to := some w, status := GigStatus.Assigned, updated_at := some now }⟩) ∧
      get_gig id (assign_gig g.employer now id w st).2 =
        some { g with assigned_to := some w, status := GigStatus.Assigned, updated_at := some now }) ∧
    (g.status ≠ GigStatus.Open →
      assign_gig g.employer now id w st =
        (Except.error "Gig is not open for assignment", st)) := by
  subst hid
  by_cases hst : g.status = GigStatus.Open
  · have h1 : assign_gig g.employer now g.id w st =
        (Except.ok { g with assigned_to := some w, status := GigStatus.Assigned, updated_at := some now },
          ⟨st.idCounter,
            storeInsert st.gigStorage g.id
              { g with assigned_to := some w, status := GigStatus.Assigned, updated_at := some now }⟩) := by
      simp [assign_gig, hget, hst]
    refine ⟨?_, ?_, ?_⟩
    · constructor
      · intro _
        exact hst
      · intro _
        exact ⟨_, by rw [h1]⟩
    · intro _
      refine ⟨h1, ?_⟩
      rw [h1]
      exact storeGet_insert_self _ _ _
    · intro h
      exact absurd hst h
  · have h1 : assign_gig g.employer now g.id w st =
        (Except.error "Gig is not open for assignment", st) := by
      simp [assign_gig, hget, hst]
    refine ⟨?_, ?_, ?_⟩
    · constructor
      · rintro ⟨g2, hg2⟩
        rw [h1] at hg2
        simp at hg2
      · intro h
        exact absurd h hst
    · intro h
      exact absurd h hst
    · intro _
      exact h1

/-- Witness for C4 at the concrete open-gig state. -/
theorem claim4_assign_iff_open_witness :
    (storeGet wStateOpen.gigStorage 1 = some wGigOpen ∧ wGigOpen.id = 1) ∧
    (((∃ g2, (assign_gig wGigOpen.employer 5 1 "W" wStateOpen).1 = Except.ok g2) ↔
      wGigOpen.status = GigStatus.Open) ∧
    (wGigOpen.status = GigStatus.Open →
      assign_gig wGigOpen.employer 5 1 "W" wStateOpen =
        (Except.ok { wGigOpen with assigned_to := some "W", status := GigStatus.Assigned, updated_at := some 5 },
          ⟨wStateOpen.idCounter,
            storeInsert wStateOpen.gigStorage wGigOpen.id
              { wGigOpen with assigned_to := some "W", status := GigStatus.Assigned, updated_at := some 5 }⟩) ∧
      get_gig 1 (assign_gig wGigOpen.employer 5 1 "W" wStateOpen).2 =
        some { wGigOpen with assigned_to := some "W", status := GigStatus.Assigned, updated_at := some 5 }) ∧
    (wGigOpen.status ≠ GigStatus.Open →
      assign_gig wGigOpen.employer 5 1 "W" wStateOpen =
        (Except.error "Gig is not open for assignment", wStateOpen))) :=
  ⟨⟨by decide, by decide⟩,
    claim4_assign_iff_open wStateOpen 1 wGigOpen "W" 5 (by decide) (by decide)⟩

/-- C5: for an existing gig whose employer is the caller, `update_gig`
fails with the invalid-state error exactly when the current status is
`Approved` (leaving the state unchanged); otherwise the stored gig's
title, description and deadline are replaced by the payload's values and
`updated_at` is stamped. -/
theorem claim5_update_guard (st : CanisterState) (id : Nat) (g : Gig)
    (now : Nat) (p : GigPayload)
    (hget : storeGet st.gigStorage id = some g) (hid : g.id = id) :
    (((update_gig g.employer now id p st).1 =
        Except.error "Approved gigs cannot be updated") ↔
      g.status = GigStatus.Approved) ∧
    (g.status = GigStatus.Approved →
      update_gig g.employer now id p st =
        (Except.error "Approved gigs cannot be updated", st)) ∧
    (g.status ≠ GigStatus.Approved →
      update_gig g.employer now id p st =
        (Except.ok { g with title := p.title, description := p.description, deadline := p.deadline, updated_at := some now },
          ⟨st.idCounter,
            storeInsert st.gigStorage g.id
              { g with title := p.title, description := p.description, deadline := p.deadline, updated_at := some now }⟩) ∧
      get_gig id (update_gig g.employer now id p st).2 =
        some { g with title := p.title, description := p.description, deadline := p.deadline, updated_at := some now }) := by
  subst hid
  by_cases hst : g.status = GigStatus.Approved
  · have h1 : update_gig g.employer now g.id p st =
        (Except.error "Approved gigs cannot be updated", st) := by
      simp [update_gig, hget, hst]
    refine ⟨?_, fun _ => h1, fun h => absurd hst h⟩
    constructor
    · intro _
      exact hst
    · intro _
      rw [h1]
  · have h1 : update_gig g.employer now g.id p st =
        (Except.ok { g with title := p.title, description := p.description, deadline := p.deadline, updated_at := some now },
          ⟨st.idCounter,
            storeInsert st.gigStorage g.id
              { g with title := p.title, description := p.description, deadline := p.deadline, updated_at := some now }⟩) := by
      simp [update_gig, hget, hst]
    refine ⟨?_, fun h => absurd h hst, fun _ => ⟨h1, ?_⟩⟩
    · constructor
      · intro herr
        rw [h1] at herr
        simp at herr
      · intro h
        exact absurd h hst
    · rw [h1]
      exact storeGet_insert_self _ _ _

/-- Witness for C5 at the concrete approved-gig state (guard fires) —
hypotheses discharged at a concrete input. -/
theorem claim5_update_guard_witness :
    (storeGet wStateApproved.gigStorage 1 = some wGigApproved ∧
      wGigApproved.id = 1) ∧
    ((((update_gig wGigApproved.employer 6 1 ⟨"t2", "d2", 11⟩ wStateApproved).1 =
        Except.error "Approved gigs cannot be updated") ↔
      wGigApproved.status = GigStatus.Approved) ∧
    (wGigApproved.status = GigStatus.Approved →
      update_gig wGigApproved.employer 6 1 ⟨"t2", "d2", 11⟩ wStateApproved =
        (Except.error "Approved gigs cannot be updated", wStateApproved)) ∧
    (wGigApproved.status ≠ GigStatus.Approved →
      update_gig wGigApproved.employer 6 1 ⟨"t2", "d2", 11⟩ wStateApproved =
        (Except.ok { wGigApproved with title := "t2", description := "d2", deadline := 11, updated_at := some 6 },
          ⟨wStateApproved.idCounter,
            storeInsert wStateApproved.gigStorage wGigApproved.id
              { wGigApproved with title := "t2", description := "d2", deadline := 11, updated_at := some 6 }⟩) ∧
      get_gig 1 (update_gig wGigApproved.employer 6 1 ⟨"t2", "d2", 11⟩ wStateApproved).2 =
        some { wGigApproved with title := "t2", description := "d2", deadline := 11, updated_at := some 6 })) :=
  ⟨⟨by decide, by decide⟩,
    claim5_update_guard wStateApproved 1 wGigApproved 6 ⟨"t2", "d2", 11⟩
      (by decide) (by decide)⟩

/-- C10: a successful `update_gig` changes only title, description,
deadline and `updated_at`; the stored record's id, employer, status,
`assigned_to` and `created_at` are unchanged. -/
theorem claim10_update_frame (st : CanisterState) (id : Nat) (g g2 : Gig)
    (i : String) (now : Nat) (p : GigPayload)
    (hget : storeGet st.gigStorage id = some g) (hid : g.id = id)
    (hok : (update_gig i now id p st).1 = Except.ok g2) :
    g2.id = g.id ∧ g2.employer = g.employer ∧ g2.status = g.status ∧
    g2.assigned_to = g.assigned_to ∧ g2.created_at = g.created_at ∧
    g2.title = p.title ∧ g2.description = p.description ∧
    g2.deadline = p.deadline ∧ g2.updated_at = some now ∧
    get_gig id (update_gig i now id p st).2 = some g2 := by
  subst hid
  simp only [update_gig, hget] at hok
  split_ifs at hok with h1 h2
  simp at hok
  subst hok
  have h3 : update_gig i now g.id p st =
      (Except.ok { g with title := p.title, description := p.description, deadline := p.deadline, updated_at := some now },
        ⟨st.idCounter,
          storeInsert st.gigStorage g.id
            { g with title := p.title, description := p.description, deadline := p.deadline, updated_at := some now }⟩) := by
    simp [update_gig, hget, h1, h2]
  refine ⟨rfl, rfl, rfl, rfl, rfl, rfl, rfl, rfl, rfl, ?_⟩
  rw [h3]
  exact storeGet_insert_self _ _ _

/-- Witness for C10: a concrete successful update on the open-gig state. -/
theorem claim10_update_frame_witness :
    (storeGet wStateOpen.gigStorage 1 = some wGigOpen ∧ wGigOpen.id = 1 ∧
      (update_gig "A" 6 1 ⟨"t2", "d2", 11⟩ wStateOpen).1 =
        Except.ok { wGigOpen with title := "t2", description := "d2", deadline := 11, updated_at := some 6 }) ∧
    ({ wGigOpen with title := "t2", description := "d2", deadline := 11, updated_at := some 6 }.id = wGigOpen.id ∧
     { wGigOpen with title := "t2", description := "d2", deadline := 11, updated_at := some 6 }.employer = wGigOpen.employer ∧
     { wGigOpen with title := "t2", description := "d2", deadline := 11, updated_at := some 6 }.status = wGigOpen.status ∧
     { wGigOpen with title := "t2", description := "d2", deadline := 11, updated_at := some 6 }.assigned_to = wGigOpen.assigned_to ∧
     { wGigOpen with title := "t2", description := "d2", deadline := 11, updated_at := some 6 }.created_at = wGigOpen.created_at ∧
     { wGigOpen with title := "t2", description := "d2", deadline := 11, updated_at := some 6 }.title = "t2" ∧
     { wGigOpen with title := "t2", description := "d2", deadline := 11, updated_at := some 6 }.description = "d2" ∧
     { wGigOpen with title := "t2", description := "d2", deadline := 11, updated_at := some 6 }.deadline = 11 ∧
     { wGigOpen with title := "t2", description := "d2", deadline := 11, updated_at := some 6 }.updated_at = some 6 ∧
     get_gig 1 (update_gig "A" 6 1 ⟨"t2", "d2", 11⟩ wStateOpen).2 =
       some { wGigOpen with title := "t2", description := "d2", deadline := 11, updated_at := some 6 }) :=
  ⟨⟨by decide, by decide, by decide⟩,
    claim10_update_frame wStateOpen 1 wGigOpen _ "A" 6 ⟨"t2", "d2", 11⟩
      (by decide) (by decide) (by decide)⟩

/-- C1 (counterexample): a single `post_gig` from installation returns a
gig with id 0 — `Cell::set` returns the previous counter value — so the
first id ever allocated is 0, not 1 as claimed. -/
theorem claim1_first_id_counterexample :
    ((runPosts initState [("A", 5, ⟨"t", "d", 9⟩)]).1).map Gig.id = [0] ∧
    ¬(((runPosts initState [("A", 5, ⟨"t", "d", 9⟩)]).1).map Gig.id).head? = some 1 := by
  decide

/-- C1 (amended): over any sequence of `post_gig` calls from installation
(bounded by the `u64` width of the id counter), the returned ids are
strictly increasing with no repeats, and the first id ever allocated
is 0. -/
theorem claim1_post_ids_start_at_zero
    (l : List (String × Nat × GigPayload)) (hw : l.length < U64_MOD) :
    List.Pairwise (· < ·) (((runPosts initState l).1).map Gig.id) ∧
    (((runPosts initState l).1).map Gig.id).Nodup ∧
    (l ≠ [] → (((runPosts initState l).1).map Gig.id).head? = some 0) := by
  have hids := (runPosts_ids l initState (by simpa [initState] using hw)).1
  have hinit : initState.idCounter = 0 := rfl
  rw [hinit] at hids
  refine ⟨?_, ?_, ?_⟩
  · rw [hids]
    exact List.pairwise_lt_range' _ _ 1 (by omega)
  · rw [hids]
    exact List.nodup_range' _ _
  · intro hne
    rw [hids]
    cases l with
    | nil => exact absurd rfl hne
    | cons a tl => simp [List.range'_succ]

/-- Witness for amended C1: two concrete posts return ids 0 then 1. -/
theorem claim1_post_ids_start_at_zero_witness :
    ([("A", 5, ⟨"t1", "d1", 10⟩), ("B", 6, ⟨"t2", "d2", 20⟩)] :
        List (String × Nat × GigPayload)).length < U64_MOD ∧
    (List.Pairwise (· < ·)
      (((runPosts initState [("A", 5, ⟨"t1", "d1", 10⟩), ("B", 6, ⟨"t2", "d2", 20⟩)]).1).map Gig.id) ∧
    (((runPosts initState [("A", 5, ⟨"t1", "d1", 10⟩), ("B", 6, ⟨"t2", "d2", 20⟩)]).1).map Gig.id).Nodup ∧
    (([("A", 5, ⟨"t1", "d1", 10⟩), ("B", 6, ⟨"t2", "d2", 20⟩)] :
        List (String × Nat × GigPayload)) ≠ [] →
      (((runPosts initState [("A", 5, ⟨"t1", "d1", 10⟩), ("B", 6, ⟨"t2", "d2", 20⟩)]).1).map Gig.id).head? =
        some 0)) :=
  ⟨by decide,
    claim1_post_ids_start_at_zero
      [("A", 5, ⟨"t1", "d1", 10⟩), ("B", 6, ⟨"t2", "d2", 20⟩)] (by decide)⟩

/-- C8: in every reachable state, `get_all_gigs` returns the full
snapshot of the stored gigs — a gig is stored under an id exactly when it
appears in the listing with that id — as a finite sequence ordered by
strictly ascending id. -/
theorem claim8_get_all_snapshot (cs : List Call) :
    List.Pairwise (· < ·) ((get_all_gigs (run cs)).map Gig.id) ∧
    ∀ id g, get_gig id (run cs) = some g ↔
      (g ∈ get_all_gigs (run cs) ∧ g.id = id) := by
  have hok := run_storeOk cs
  constructor
  · have hmap : (get_all_gigs (run cs)).map Gig.id =
        (run cs).gigStorage.map Prod.fst := by
      rw [get_all_gigs, List.map_map]
      exact List.map_congr_left (fun p hp => hok.2 p hp)
    rw [hmap]
    exact hok.1
  · intro id g
    constructor
    · intro hget
      have hmem := storeGet_mem _ _ _ hget
      exact ⟨List.mem_map_of_mem Prod.snd hmem, hok.2 _ hmem⟩
    · rintro ⟨hmem, hgid⟩
      obtain ⟨p, hp, hpg⟩ := List.mem_map.mp hmem
      obtain ⟨k, v⟩ := p
      have hv : v = g := hpg
      subst hv
      have h5 := hok.2 (k, v) hp
      have hk : k = id := by
        simp only at h5
        omega
      subst hk
      exact mem_storeGet _ _ _ hok.1 hp

theorem employer_preserved_insert (st : CanisterState) (hok : StoreOk st)
    (id q : Nat) (gig gig2 g g2 : Gig)
    (hget2 : storeGet st.gigStorage id = some gig)
    (hemp : gig2.employer = gig.employer) (hid2 : gig2.id = gig.id)
    (hq : storeGet st.gigStorage q = some g)
    (h2 : storeGet (storeInsert st.gigStorage gig2.id gig2) q = some g2) :
    g2.employer = g.employer := by
  by_cases hqid : q = gig2.id
  · subst hqid
    rw [storeGet_insert_self] at h2
    have hg2 : gig2 = g2 := by injection h2
    have hgid : gig.id = id := hok.2 _ (storeGet_mem _ _ _ hget2)
    rw [hid2, hgid, hget2] at hq
    have hg : gig = g := by injection hq
    rw [← hg2, ← hg]
    exact hemp
  · rw [storeGet_insert_ne _ _ _ _ hqid, hq] at h2
    have hg : g = g2 := by injection h2
    rw [← hg]

theorem step_employer_ne (st : CanisterState) (c : Call)
    (hc : ∀ caller now p, c = Call.post caller now p → caller ≠ "")
    (h : ∀ q ∈ st.gigStorage, (q.2).employer ≠ "") :
    ∀ q ∈ (step st c).gigStorage, (q.2).employer ≠ "" := by
  cases c with
  | post caller now p =>
      intro q hq
      rcases mem_storeInsert _ _ _ q hq with h1 | h1
      · subst h1
        exact hc caller now p rfl
      · exact h q h1
  | assign caller now id w =>
      rcases hget : storeGet st.gigStorage id with _ | gig <;>
        simp only [step, assign_gig, hget]
      · exact h
      · split_ifs with h1 h2
        · exact h
        · exact h
        · intro q hq
          rcases mem_storeInsert _ _ _ q hq with h3 | h3
          · subst h3
            exact h (id, gig) (storeGet_mem _ _ _ hget)
          · exact h q h3
  | approve caller now id =>
      rcases hget : storeGet st.gigStorage id with _ | gig <;>
        simp only [step, approve_gig, hget]
      · exact h
      · split_ifs with h1
        · exact h
        · intro q hq
          rcases mem_storeInsert _ _ _ q hq with h3 | h3
          · subst h3
            exact h (id, gig) (storeGet_mem _ _ _ hget)
          · exact h q h3
  | update caller now id p =>
      rcases hget : storeGet st.gigStorage id with _ | gig <;>
        simp only [step, update_gig, hget]
      · exact h
      · split_ifs with h1 h2
        · exact h
        · exact h
        · intro q hq
          rcases mem_storeInsert _ _ _ q hq with h3 | h3
          · subst h3
            exact h (id, gig) (storeGet_mem _ _ _ hget)
          · exact h q h3
  | delete caller id =>
      rcases hget : storeGet st.gigStorage id with _ | gig <;>
        simp only [step, delete_gig, hget]
      · exact h
      · split_ifs with h1
        · exact h
        · intro q hq
          exact h q ((storeRemove_sublist _ _).subset hq)

theorem foldl_employer_ne (cs : List Call) :
    ∀ st : CanisterState,
    (∀ caller now p, Call.post caller now p ∈ cs → caller ≠ "") →
    (∀ q ∈ st.gigStorage, (q.2).employer ≠ "") →
    ∀ q ∈ (cs.foldl step st).gigStorage, (q.2).employer ≠ "" := by
  induction cs with
  | nil =>
      intro st _ h
      simpa using h
  | cons c rest ih =>
      intro st hcal h
      simp only [List.foldl_cons]
      refine ih (step st c) ?_ ?_
      · intro caller now p hmem
        exact hcal caller now p (List.mem_cons_of_mem _ hmem)
      · refine step_employer_ne st c ?_ h
        intro caller now p hc
        subst hc
        exact hcal caller now p (List.mem_cons_self _ _)

theorem employer_after_assign (st : CanisterState) (hok : StoreOk st)
    (i w : String) (now id q : Nat) (g g2 : Gig)
    (hq : storeGet st.gigStorage q = some g)
    (h2 : storeGet (assign_gig i now id w st).2.gigStorage q = some g2) :
    g2.employer = g.employer := by
  rcases hget : storeGet st.gigStorage id with _ | gig <;>
    simp only [assign_gig, hget] at h2
  · rw [hq] at h2
    injection h2 with h
    rw [← h]
  · split_ifs at h2 with h1 h3
    · have h4 : storeGet st.gigStorage q = some g2 := h2
      rw [hq] at h4
      injection h4 with h
      rw [← h]
    · have h4 : storeGet st.gigStorage q = some g2 := h2
      rw [hq] at h4
      injection h4 with h
      rw [← h]
    · have h4 : storeGet
          (storeInsert st.gigStorage
            ({ gig with assigned_to := some w, status := GigStatus.Assigned, updated_at := some now } : Gig).id
            { gig with assigned_to := some w, status := GigStatus.Assigned, updated_at := some now }) q =
          some g2 := h2
      refine employer_preserved_insert st hok id q gig _ g g2 hget ?_ ?_ hq h4
      · rfl
      · rfl

theorem employer_after_approve (st : CanisterState) (hok : StoreOk st)
    (i : String) (now id q : Nat) (g g2 : Gig)
    (hq : storeGet st.gigStorage q = some g)
    (h2 : storeGet (approve_gig i now id st).2.gigStorage q = some g2) :
    g2.employer = g.employer := by
  rcases hget : storeGet st.gigStorage id with _ | gig <;>
    simp only [approve_gig, hget] at h2
  · rw [hq] at h2
    injection h2 with h
    rw [← h]
  · split_ifs at h2 with h1
    · have h4 : storeGet st.gigStorage q = some g2 := h2
      rw [hq] at h4
      injection h4 with h
      rw [← h]
    · have h4 : storeGet
          (storeInsert st.gigStorage
            ({ gig with status := GigStatus.Approved, updated_at := some now } : Gig).id
            { gig with status := GigStatus.Approved, updated_at := some now }) q =
          some g2 := h2
      refine employer_preserved_insert st hok id q gig _ g g2 hget ?_ ?_ hq h4
      · rfl
      · rfl

theorem employer_after_update (st : CanisterState) (hok : StoreOk st)
    (i : String) (now id q : Nat) (pl : GigPayload) (g g2 : Gig)
    (hq : storeGet st.gigStorage q = some g)
    (h2 : storeGet (update_gig i now id pl st).2.gigStorage q = some g2) :
    g2.employer = g.employer := by
  rcases hget : storeGet st.gigStorage id with _ | gig <;>
    simp only [update_gig, hget] at h2
  · rw [hq] at h2
    injection h2 with h
    rw [← h]
  · split_ifs at h2 with h1 h3
    · have h4 : storeGet st.gigStorage q = some g2 := h2
      rw [hq] at h4
      injection h4 with h
      rw [← h]
    · have h4 : storeGet st.gigStorage q = some g2 := h2
      rw [hq] at h4
      injection h4 with h
      rw [← h]
    · have h4 : storeGet
          (storeInsert st.gigStorage
            ({ gig with title := pl.title, description := pl.description, deadline := pl.deadline, updated_at := some now } : Gig).id
            { gig with title := pl.title, description := pl.description, deadline := pl.deadline, updated_at := some now }) q =
          some g2 := h2
      refine employer_preserved_insert st hok id q gig _ g g2 hget ?_ ?_ hq h4
      · rfl
      · rfl

/-- C9: over any reachable state whose creating callers are non-empty
identity strings, every stored gig's employer is non-empty; and the
employer of a stored gig is never changed by `assign_gig`, `approve_gig`
or `update_gig` (it is set once at creation from the caller identity). -/
theorem claim9_employer_invariant (cs : List Call)
    (hcal : ∀ caller now p, Call.post caller now p ∈ cs → caller ≠ "") :
    (∀ q ∈ (run cs).gigStorage, (q.2).employer ≠ "") ∧
    (∀ (i w : String) (now id : Nat) (pl : GigPayload) (q : Nat) (g : Gig),
      get_gig q (run cs) = some g →
      (∀ g2, get_gig q (assign_gig i now id w (run cs)).2 = some g2 →
        g2.employer = g.employer) ∧
      (∀ g2, get_gig q (approve_gig i now id (run cs)).2 = some g2 →
        g2.employer = g.employer) ∧
      (∀ g2, get_gig q (update_gig i now id pl (run cs)).2 = some g2 →
        g2.employer = g.employer)) := by
  have hok := run_storeOk cs
  constructor
  · exact foldl_employer_ne cs initState hcal (by simp [initState])
  · intro i w now id pl q g hq
    refine ⟨?_, ?_, ?_⟩
    · intro g2 h2
      exact employer_after_assign (run cs) hok i w now id q g g2 hq h2
    · intro g2 h2
      exact employer_after_approve (run cs) hok i now id q g g2 hq h2
    · intro g2 h2
      exact employer_after_update (run cs) hok i now id q pl g g2 hq h2

/-- Witness for C9: a single post by a non-empty caller, with the
preservation statement instantiated at that state. -/
theorem claim9_employer_invariant_witness :
    (∀ caller now p, Call.post caller now p ∈ [Call.post "A" 0 ⟨"t", "d", 9⟩] →
      caller ≠ "") ∧
    ((∀ q ∈ (run [Call.post "A" 0 ⟨"t", "d", 9⟩]).gigStorage,
      (q.2).employer ≠ "") ∧
    (∀ (i w : String) (now id : Nat) (pl : GigPayload) (q : Nat) (g : Gig),
      get_gig q (run [Call.post "A" 0 ⟨"t", "d", 9⟩]) = some g →
      (∀ g2, get_gig q (assign_gig i now id w (run [Call.post "A" 0 ⟨"t", "d", 9⟩])).2 = some g2 →
        g2.employer = g.employer) ∧
      (∀ g2, get_gig q (approve_gig i now id (run [Call.post "A" 0 ⟨"t", "d", 9⟩])).2 = some g2 →
        g2.employer = g.employer) ∧
      (∀ g2, get_gig q (update_gig i now id pl (run [Call.post "A" 0 ⟨"t", "d", 9⟩])).2 = some g2 →
        g2.employer = g.employer))) := by
  have hc : ∀ caller now p,
      Call.post caller now p ∈ [Call.post "A" 0 ⟨"t", "d", 9⟩] → caller ≠ "" := by
    intro caller now p hmem
    simp only [List.mem_singleton, Call.post.injEq] at hmem
    rw [hmem.1]
    decide
  exact ⟨hc, claim9_employer_invariant [Call.post "A" 0 ⟨"t", "d", 9⟩] hc⟩

/-- C6: after a successful `delete_gig id` by the employer on a reachable
state (bounded by the `u64` counter width), `get_gig id` is absent,
`get_all_gigs` excludes every gig with that id, and no subsequent
`post_gig` — after any further calls whose posts stay within the counter
width — ever returns a gig with that id again. -/
theorem claim6_delete_frees (cs : List Call) (caller msg : String)
    (id : Nat) (st2 : CanisterState)
    (hw : numPosts cs < U64_MOD)
    (hdel : delete_gig caller id (run cs) = (Except.ok msg, st2)) :
    get_gig id st2 = none ∧
    (∀ g ∈ get_all_gigs st2, g.id ≠ id) ∧
    (∀ cs2 : List Call, numPosts cs + numPosts cs2 < U64_MOD →
      ∀ (c2 : String) (now2 : Nat) (p2 : GigPayload),
        (post_gig c2 now2 p2 (cs2.foldl step st2)).1.id ≠ id) := by
  have hok := run_storeOk cs
  obtain ⟨hklt, hcnt⟩ := run_inv cs hw
  rcases hget : storeGet (run cs).gigStorage id with _ | gig <;>
    simp only [delete_gig, hget] at hdel
  · simp at hdel
  · by_cases h1 : gig.employer ≠ caller
    · rw [if_pos h1] at hdel
      simp at hdel
    · rw [if_neg h1] at hdel
      have hst2 : (⟨(run cs).idCounter, storeRemove (run cs).gigStorage id⟩ :
          CanisterState) = st2 := congrArg Prod.snd hdel
      subst hst2
      have hok2 : StoreOk ⟨(run cs).idCounter, storeRemove (run cs).gigStorage id⟩ :=
        ⟨storeRemove_sorted _ _ hok.1,
          fun p hp => hok.2 p ((storeRemove_sublist _ _).subset hp)⟩
      have hklt2 : KeysLt ⟨(run cs).idCounter, storeRemove (run cs).gigStorage id⟩ :=
        fun p hp => hklt p ((storeRemove_sublist _ _).subset hp)
      refine ⟨?_, ?_, ?_⟩
      · exact storeGet_remove_self _ _ hok.1
      · intro g hg
        obtain ⟨p, hp, hpg⟩ := List.mem_map.mp hg
        obtain ⟨hps, hpne⟩ := mem_storeRemove _ _ p hok.1 hp
        have hpid : (p.2).id = p.1 := hok.2 p hps
        rw [← hpg, hpid]
        exact hpne
      · intro cs2 hb c2 now2 p2
        have hinv := foldl_step_inv cs2
          ⟨(run cs).idCounter, storeRemove (run cs).gigStorage id⟩ hok2 hklt2
          (by dsimp only; omega)
        have hidlt := hklt (id, gig) (storeGet_mem _ _ _ hget)
        have hc2 : (cs2.foldl step
            ⟨(run cs).idCounter, storeRemove (run cs).gigStorage id⟩).idCounter =
            (run cs).idCounter + numPosts cs2 := hinv.2
        have hpost : (post_gig c2 now2 p2 (cs2.foldl step
            ⟨(run cs).idCounter, storeRemove (run cs).gigStorage id⟩)).1.id =
            (cs2.foldl step ⟨(run cs).idCounter,
              storeRemove (run cs).gigStorage id⟩).idCounter := rfl
        rw [hpost, hc2]
        simp only at hidlt
        omega

/-- Witness for C6: post one gig as A (it gets id 0), delete it as A,
check the freed id. -/
theorem claim6_delete_frees_witness :
    numPosts [Call.post "A" 0 ⟨"t", "d", 9⟩] < U64_MOD ∧
    delete_gig "A" 0 (run [Call.post "A" 0 ⟨"t", "d", 9⟩]) =
      (Except.ok "Gig deleted successfully", (⟨1, []⟩ : CanisterState)) ∧
    (get_gig 0 (⟨1, []⟩ : CanisterState) = none ∧
    (∀ g ∈ get_all_gigs ⟨1, []⟩, g.id ≠ 0) ∧
    (∀ cs2 : List Call,
      numPosts [Call.post "A" 0 ⟨"t", "d", 9⟩] + numPosts cs2 < U64_MOD →
      ∀ (c2 : String) (now2 : Nat) (p2 : GigPayload),
        (post_gig c2 now2 p2 (cs2.foldl step (⟨1, []⟩ : CanisterState))).1.id ≠ 0)) :=
  ⟨by decide, by decide,
    claim6_delete_frees [Call.post "A" 0 ⟨"t", "d", 9⟩] "A" "Gig deleted successfully"
      0 ⟨1, []⟩ (by decide) (by decide)⟩
